import Mathlib

/-
Verification of the uma-card-manager tool: a shallow embedding of the
card-collection operations of `add.py`, `enrich.py` and `recommend.py`,
with theorems about the documented properties of those operations.
-/

set_option linter.unusedVariables false

namespace UmaCards

/-! ## Cards of `add.py` (`my_cards.json`)

A card in the user's collection is a dict with the `UserCard` TypedDict
fields; the source reads every field with `dict.get`, so each field is
optional here. -/

/-- A card of the user's collection as handled by `add.py`. -/
structure UserCard where
  name : Option String := none
  type : Option Int := none
  rarity : Option Int := none
  lb : Option Int := none
deriving Repr, DecidableEq, Inhabited

/-- The matching test of `find_card_index`: `card.get("name") == name and
card.get("type") == card_type and card.get("rarity") == rarity`. -/
def cardMatches (name : String) (card_type rarity : Int) (card : UserCard) : Bool :=
  card.name == some name && card.type == some card_type && card.rarity == some rarity

/-- `find_card_index` from `add.py`: the index of the first card matching
`(name, type, rarity)`, or `-1` when there is none. -/
def find_card_index (cards : List UserCard) (name : String) (card_type rarity : Int) : Int :=
  match cards.findIdx? (cardMatches name card_type rarity) with
  | some i => (i : Int)
  | none => -1

/-- The message `add_card` prints for a card already at max limit break. -/
def maxLbMessage (name : String) : String :=
  "Card '" ++ name ++ "' is already at max limit break (lb=4), ignoring"

/-- `add_card` from `add.py`: add a card to the collection or increase its
limit break. When a card with the same `(name, type, rarity)` exists, its
`lb` (`card.get("lb", 0)`) is bumped unless it is already `>= 4`;
otherwise a new card with `lb = 0` is appended. Returns the updated
collection and the printed message. -/
def add_card (cards : List UserCard) (name : String) (card_type rarity : Int) :
    List UserCard × String :=
  match cards.findIdx? (cardMatches name card_type rarity) with
  | some idx =>
      let card := cards.getD idx default
      let current_lb := card.lb.getD 0
      if 4 ≤ current_lb then
        (cards, maxLbMessage name)
      else
        (cards.set idx { card with lb := some (current_lb + 1) },
          "Increased lb for '" ++ name ++ "' from " ++ toString current_lb ++
            " to " ++ toString (current_lb + 1))
  | none =>
      (cards ++ [{ name := some name, type := some card_type,
                   rarity := some rarity, lb := some 0 }],
        "Added new card '" ++ name ++ "' with lb=0")

/-! ## Values and cards of `enrich.py`

`enrich_cards` inspects the runtime type of each field (`isinstance`
checks), so its cards carry dynamically typed JSON values. -/

/-- A JSON-ish Python value as it appears in a card dict: `None`, an
`int`, a `str`, or a list of values. -/
inductive JVal where
  | jnull : JVal
  | jint : Int → JVal
  | jstr : String → JVal
  | jlist : List JVal → JVal

/-- A card dict as handled by `enrich_cards`: the keys of the `UserCard`
and `EnrichedCard` TypedDicts, each holding an arbitrary value or absent.
`dict.get` on an absent key yields `none`. -/
structure JCard where
  name : Option JVal := none
  type : Option JVal := none
  rarity : Option JVal := none
  lb : Option JVal := none
  id : Option JVal := none
  score : Option JVal := none
  tier : Option JVal := none

/-- A tierlist entry (`TierlistCard` TypedDict) with dynamically typed
fields, as consumed by `enrich_cards` and
`get_best_cards_by_type_from_tierlist`. -/
structure TierlistCard where
  id : Option JVal := none
  name : Option JVal := none
  type : Option JVal := none
  rarity : Option JVal := none
  scores : Option JVal := none
  tiers : Option JVal := none

/-- The composite key `(name, type, rarity)` of the tierlist index
(`CardKey` in `enrich.py`). -/
structure CardKey where
  name : String
  type : Int
  rarity : Int
deriving Repr, DecidableEq

/-- One iteration of the loop of `enrich_cards` (`enrich.py`). The first
component is the input card as the loop body leaves it (the body writes
only to the shallow copy `out = dict(card)`); the second is the card
appended to the output for this input, or `none` when the card is dropped
(a valid key with no tierlist match). -/
def enrichOne (tier_index : CardKey → Option TierlistCard) (card : JCard) :
    JCard × Option JCard :=
  match card.name, card.type, card.rarity with
  | some (JVal.jstr name), some (JVal.jint ctype), some (JVal.jint rarity) =>
    match tier_index ⟨name, ctype, rarity⟩ with
    | none => (card, none)
    | some tier_card =>
      let out :=
        match tier_card.id with
        | some v => { card with id := some v }
        | none => card
      match card.lb with
      | some (JVal.jint lb) =>
        match tier_card.scores, tier_card.tiers with
        | some (JVal.jlist scores), some (JVal.jlist tiers) =>
          if (0 ≤ lb ∧ lb < (scores.length : Int)) ∧
              (0 ≤ lb ∧ lb < (tiers.length : Int)) then
            (card, some { out with score := some (scores.getD lb.toNat JVal.jnull),
                                   tier := some (tiers.getD lb.toNat JVal.jnull) })
          else (card, some out)
        | _, _ => (card, some out)
      | _ => (card, some out)
  | _, _, _ => (card, some card)

/-- The loop of `enrich_cards` with the input list threaded through as
state: returns the enriched output together with the input list as the
loop leaves it. -/
def enrich_cards_st (tier_index : CardKey → Option TierlistCard) :
    List JCard → List JCard × List JCard
  | [] => ([], [])
  | card :: rest =>
    let step := enrichOne tier_index card
    let tail := enrich_cards_st tier_index rest
    (match step.2 with
     | some out => out :: tail.1
     | none => tail.1,
     step.1 :: tail.2)

/-- `enrich_cards` from `enrich.py`: the new list of cards enriched with
id/score/tier when available. -/
def enrich_cards (cards : List JCard) (tier_index : CardKey → Option TierlistCard) :
    List JCard :=
  (enrich_cards_st tier_index cards).1

/-- The skip decision at the top of `enrich.run`: re-enrichment is skipped
iff `--force` was not given, the output file exists, and its metadata
records both current input hashes. `metadata` is the `"metadata"` entry of
the existing output when present, as the pair of its `input_hash` and
`tierlist_hash` entries. -/
def enrich_should_skip (force output_exists : Bool)
    (metadata : Option (Option String × Option String))
    (input_hash tierlist_hash : String) : Bool :=
  !force && output_exists &&
    match metadata with
    | some md => md.1 == some input_hash && md.2 == some tierlist_hash
    | none => false

/-! ## The deck recommendation of `recommend.py` -/

/-- An enriched card as consumed by `recommend.py` (`EnrichedCard`
TypedDict): all fields optional, read with `dict.get`. -/
structure EnrichedCard where
  name : Option String := none
  type : Option Int := none
  rarity : Option Int := none
  lb : Option Int := none
  id : Option Int := none
  score : Option Int := none
  tier : Option String := none
deriving Repr, DecidableEq, Inhabited

/-- `TIER_ORDER` from `recommend.py`. -/
def TIER_ORDER : List String :=
  ["S+", "S", "A+", "A", "B+", "B", "C+", "C", "D+", "D", "E+", "E", "F"]

/-- `TIER_VALUE.get(t, 0)`: the tier at index `i` of `TIER_ORDER` has value
`len(TIER_ORDER) - i`; a string not in the table has value `0`. -/
def tierValueGetD (t : String) : Int :=
  match TIER_ORDER.indexOf? t with
  | some i => (TIER_ORDER.length : Int) - i
  | none => 0

/-- `get_tier_value` from `recommend.py`: `0` for a falsy tier (`None` or
the empty string), else the `TIER_VALUE` table value. -/
def get_tier_value (tier : Option String) : Int :=
  match tier with
  | none => 0
  | some t => if t = "" then 0 else tierValueGetD t

/-- Python list slicing `l[:n]` for an `int` `n`: a nonnegative `n` takes
the first `n` elements, a negative `n` counts from the end of the list. -/
def pyTake (l : List α) (n : Int) : List α :=
  if 0 ≤ n then l.take n.toNat else l.take ((l.length : Int) + n).toNat

/-- The sort key `c.get("score", 0)` used throughout `recommend.py`. -/
def scoreGetD (c : EnrichedCard) : Int :=
  c.score.getD 0

/-- The order of `list.sort(key=lambda c: c.get("score", 0), reverse=True)`:
`a` may come before `b` iff `b`'s score does not exceed `a`'s. -/
def scoreDescRel (a b : EnrichedCard) : Prop :=
  scoreGetD b ≤ scoreGetD a

instance : DecidableRel scoreDescRel :=
  fun a b => inferInstanceAs (Decidable (scoreGetD b ≤ scoreGetD a))

instance : IsTotal EnrichedCard scoreDescRel :=
  ⟨fun a b => le_total (scoreGetD b) (scoreGetD a)⟩

instance : IsTrans EnrichedCard scoreDescRel :=
  ⟨fun a b c h1 h2 => le_trans h2 h1⟩

/-- `list.sort(key=lambda c: c.get("score", 0), reverse=True)`: a stable
sort, descending by score (ties keep their original order, as in Python). -/
def sortByScoreDesc (l : List EnrichedCard) : List EnrichedCard :=
  l.insertionSort scoreDescRel

/-- The skip test of `select_best_cards_by_type`: a card takes part in the
grouping iff its type is present and its id does not compare equal
(Python `==`, under which `None == None`) to the excluded id. -/
def selectable (exclude_card_id : Option Int) (c : EnrichedCard) : Bool :=
  !(c.type == none) && !(c.id == exclude_card_id)

/-- The contribution of one `(type, count)` pair of `type_counts` to
`select_best_cards_by_type`: the slice `[:count]` of that type's group of
selectable cards (grouping preserves collection order), sorted by score
descending. -/
def selectTypeChunk (my_cards : List EnrichedCard) (exclude_card_id : Option Int)
    (tc : Int × Int) : List EnrichedCard :=
  pyTake (sortByScoreDesc (my_cards.filter
    (fun c => selectable exclude_card_id c && c.type == some tc.1))) tc.2

/-- `select_best_cards_by_type` from `recommend.py`: group the selectable
cards by type, sort each group by score descending, then for each
`(type, count)` of `type_counts` in order take the slice `[:count]` of
that type's group and concatenate. -/
def select_best_cards_by_type (my_cards : List EnrichedCard)
    (type_counts : List (Int × Int)) (exclude_card_id : Option Int) :
    List EnrichedCard :=
  type_counts.flatMap (selectTypeChunk my_cards exclude_card_id)

/-- The backfill step of `recommend.run`: with fewer than 6 slots used,
extend `selected` with the best-scoring cards of `my_cards` whose id is
not among `sel_ids` and whose score is present. `used` counts the slots
already taken (in the support branch the borrowed card takes one). -/
def fillRemaining (my_cards selected : List EnrichedCard)
    (sel_ids : List (Option Int)) (used : Nat) : List EnrichedCard :=
  if used < 6 then
    let remaining := sortByScoreDesc (my_cards.filter
      (fun c => !(sel_ids.contains c.id) && !(c.score == none)))
    selected ++ remaining.take (6 - used)
  else selected

/-- A borrow candidate from the tierlist: the tuple
`(card_id, card_name, card_type, max_score, max_tier)`. -/
structure BorrowCand where
  id : Int
  name : String
  type : Int
  score : Int
  tier : String
deriving Repr, DecidableEq, Inhabited

/-- `type_counts.get(t, 0)` on the association list of per-type counts. -/
def dictGetD (m : List (Int × Int)) (k : Int) (d : Int) : Int :=
  (m.lookup k).getD d

/-- `sim_type_counts`: a copy of `type_counts` where the candidate's type
loses one slot when its count is positive. -/
def decrementType (tcs : List (Int × Int)) (t : Int) : List (Int × Int) :=
  if 0 < dictGetD tcs t 0 then
    tcs.map (fun p => if p.1 == t then (p.1, p.2 - 1) else p)
  else tcs

/-- The deck simulated for one borrow candidate in `recommend.run`: select
with the candidate's type decremented and its id excluded, then backfill
to 6 total slots (the candidate occupying one). -/
def candidateDeck (type_counts : List (Int × Int)) (my_cards : List EnrichedCard)
    (cand : BorrowCand) : List EnrichedCard :=
  let sim := decrementType type_counts cand.type
  let cur := select_best_cards_by_type my_cards sim (some cand.id)
  if cur.length + 1 < 6 then
    fillRemaining my_cards cur (cur.map (fun c => c.id) ++ [some cand.id])
      (cur.length + 1)
  else cur

/-- One iteration of the borrow-candidate loop of `recommend.run`: keep
the candidate's simulated deck when it beats the best so far on total tier
value, then total score. The state is
`(best_overall_tier_val, best_overall_score, best)`. -/
def supportStep (type_counts : List (Int × Int)) (my_cards : List EnrichedCard)
    (st : Int × Int × Option (BorrowCand × List EnrichedCard))
    (cand : BorrowCand) : Int × Int × Option (BorrowCand × List EnrichedCard) :=
  let cur := candidateDeck type_counts my_cards cand
  let total_score := cand.score + (cur.map scoreGetD).sum
  let total_tier_val := get_tier_value (some cand.tier) +
    (cur.map (fun c => get_tier_value c.tier)).sum
  if st.1 < total_tier_val || (total_tier_val == st.1 && st.2.1 < total_score) then
    (total_tier_val, total_score, some (cand, cur))
  else st

/-- The borrow-candidate search of `recommend.run`: fold `supportStep`
over the candidates starting from best tier/score `-1` and no support. -/
def searchSupport (type_counts : List (Int × Int)) (my_cards : List EnrichedCard)
    (cands : List BorrowCand) : Option (BorrowCand × List EnrichedCard) :=
  (cands.foldl (supportStep type_counts my_cards) (-1, -1, none)).2.2

/-- Result of the `recommend` subcommand: an error exit, or the
recommended deck (the borrowed support card, when one is chosen, plus the
selected collection cards). -/
inductive RunResult where
  | error : String → RunResult
  | deck : Option BorrowCand → List EnrichedCard → RunResult
deriving Repr, DecidableEq

/-- `type_counts` as built by `recommend.run`: both the positional path
(missing positions filled with 0) and the named-argument path produce
counts for exactly the six types 0..5. -/
def mkTypeCounts (speed stamina power guts wit friend : Int) : List (Int × Int) :=
  [(0, speed), (1, stamina), (2, power), (3, guts), (4, wit), (5, friend)]

/-- The core of `recommend.run` (the non-`--best` path) after argument
parsing and file loading: validate the total, search for a support card
when allowed and fewer than 6 slots are requested, otherwise select from
the collection alone; in both branches backfill to 6 slots. -/
def recommend_run (no_support : Bool) (type_counts : List (Int × Int))
    (my_cards : List EnrichedCard) (potential_borrows : List BorrowCand) :
    RunResult :=
  let total := (type_counts.map (fun p => p.2)).sum
  if total == 0 then RunResult.error "you must specify at least one card type"
  else if 6 < total then RunResult.error "total card count exceeds 6"
  else
    let support :=
      if !no_support && total < 6 then
        searchSupport type_counts my_cards potential_borrows
      else none
    match support with
    | some bs => RunResult.deck (some bs.1) bs.2
    | none =>
      let selected := select_best_cards_by_type my_cards type_counts none
      let selected := fillRemaining my_cards selected
        (selected.map (fun c => c.id)) selected.length
      RunResult.deck none selected

/-- The number of cards in the resulting deck: the selected collection
cards plus the borrowed support card when one is chosen. -/
def deckSize : RunResult → Nat
  | RunResult.error _ => 0
  | RunResult.deck support selected =>
    selected.length + (if support.isSome then 1 else 0)

/-- The card ids present in the deck: the borrowed card's id, when one is
chosen, followed by the ids of the selected cards that have one. -/
def deckIds : RunResult → List Int
  | RunResult.error _ => []
  | RunResult.deck support selected =>
    (match support with | some b => [b.id] | none => []) ++
      selected.filterMap (fun c => c.id)

/-! ## `get_best_cards_by_type_from_tierlist` -/

/-- The ids the user already owns at max limit break:
`{c.get("id") for c in my_cards if c.get("lb") == 4 and c.get("id") is not None}`. -/
def mlbIds (my_cards : List EnrichedCard) : List Int :=
  my_cards.filterMap (fun c => if c.lb == some 4 then c.id else none)

/-- Python `max` over a tierlist `scores` array, which the source casts to
`List[int]`: the maximum of its integer elements. -/
def pyMaxInt (xs : List JVal) : Int :=
  match xs.filterMap (fun v => match v with | JVal.jint n => some n | _ => none) with
  | [] => 0
  | x :: rest => rest.foldl max x

/-- `tiers[-1]` read as the tier string: the last element when it is a
string (any non-string value has tier value 0, like the empty string). -/
def lastTierString (tiers : List JVal) : String :=
  match tiers.getLast? with
  | some (JVal.jstr s) => s
  | _ => ""

/-- `card_dict.get("name", "Unknown")` guarded by `isinstance(..., str)`. -/
def cardNameString (v : Option JVal) : String :=
  match v with
  | some (JVal.jstr s) => s
  | _ => "Unknown"

/-- Python dict assignment `d[k] = v` on an association list: update the
existing binding in place, or append a new one. -/
def dictSet (m : List (Int × BorrowCand)) (k : Int) (v : BorrowCand) :
    List (Int × BorrowCand) :=
  if (m.lookup k).isSome then
    m.map (fun p => if p.1 == k then (p.1, v) else p)
  else m ++ [(k, v)]

/-- `card_id_int` in `get_best_cards_by_type_from_tierlist`: the entry's
integer `id` field, else the dict key when it is all digits, else `0`. -/
def entryIdInt (key : String) (card : TierlistCard) : Int :=
  match card.id with
  | some (JVal.jint n) => n
  | _ =>
    match key.toNat? with
    | some k => (k : Int)
    | none => 0

/-- One iteration of the loop of `get_best_cards_by_type_from_tierlist`:
skip entries owned at MLB, entries with empty or non-list `scores` or
`tiers` and entries with a missing or `-1` type; otherwise update the
per-type best by tier value, then score. -/
def tierlistBestStep (mlb_ids : List Int) (best : List (Int × BorrowCand))
    (entry : String × TierlistCard) : List (Int × BorrowCand) :=
  let card_id_int := entryIdInt entry.1 entry.2
  if mlb_ids.contains card_id_int then best
  else
    match entry.2.scores, entry.2.tiers with
    | some (JVal.jlist scores), some (JVal.jlist tiers) =>
      if scores.isEmpty || tiers.isEmpty then best
      else
        let max_score := pyMaxInt scores
        let max_tier := lastTierString tiers
        match entry.2.type with
        | some (JVal.jint card_type) =>
          if card_type == -1 then best
          else
            let better :=
              match best.lookup card_type with
              | none => true
              | some cb =>
                decide (get_tier_value (some cb.tier) < get_tier_value (some max_tier)) ||
                  (get_tier_value (some max_tier) == get_tier_value (some cb.tier) &&
                    decide (cb.score < max_score))
            if better then
              dictSet best card_type
                { id := card_id_int, name := cardNameString entry.2.name,
                  type := card_type, score := max_score, tier := max_tier }
            else best
        | _ => best
    | _, _ => best

/-- `get_best_cards_by_type_from_tierlist` from `recommend.py`, over the
parsed `cards` dict of the tierlist: the best card of each type that the
user does not already own at MLB. -/
def get_best_cards_by_type_from_tierlist (cards : List (String × TierlistCard))
    (my_cards : List EnrichedCard) : List (Int × BorrowCand) :=
  cards.foldl (tierlistBestStep (mlbIds my_cards)) []

/-! ## Theorems: add and enrich -/

theorem findIdx?_some_of_exists {α : Type _} {p : α → Bool} {l : List α} :
    ∀ (s : Nat), (∃ x ∈ l, p x = true) → ∃ i, l.findIdx? p s = some i := by
  induction l with
  | nil => intro s h; simp at h
  | cons a l ih =>
    intro s h
    rw [List.findIdx?_cons]
    by_cases ha : p a = true
    · exact ⟨s, by simp [ha]⟩
    · obtain ⟨x, hx, hpx⟩ := h
      rcases List.mem_cons.mp hx with rfl | hx'
      · exact absurd hpx ha
      · obtain ⟨i, hi⟩ := ih (s + 1) ⟨x, hx', hpx⟩
        exact ⟨i, by rw [if_neg ha]; exact hi⟩

theorem findIdx?_spec_getD {α : Type _} {p : α → Bool} (d : α) :
    ∀ {l : List α} {s i : Nat}, l.findIdx? p s = some i →
      s ≤ i ∧ i - s < l.length ∧ p (l.getD (i - s) d) = true := by
  intro l
  induction l with
  | nil => intro s i h; rw [List.findIdx?_nil] at h; cases h
  | cons a l ih =>
    intro s i h
    rw [List.findIdx?_cons] at h
    by_cases ha : p a = true
    · rw [if_pos ha] at h
      cases h
      refine ⟨le_refl _, by simp, ?_⟩
      simp [ha]
    · rw [if_neg ha] at h
      obtain ⟨hs, hlt, hp⟩ := ih h
      refine ⟨by omega, by simp; omega, ?_⟩
      have his : i - s = (i - (s + 1)) + 1 := by omega
      rw [his, List.getD_cons_succ]
      exact hp


/-- C4: for a collection in which the card keyed `(name, type, rarity)`
exists and every entry matching that key has `lb >= 4`, `add_card` returns
the collection unchanged together with the already-at-max message. -/
theorem add_card_already_max (cards : List UserCard) (name : String)
    (card_type rarity : Int)
    (hmatch : ∃ c ∈ cards, cardMatches name card_type rarity c = true)
    (hmax : ∀ c ∈ cards, cardMatches name card_type rarity c = true →
      4 ≤ c.lb.getD 0) :
    add_card cards name card_type rarity = (cards, maxLbMessage name) := by
  obtain ⟨i, hi⟩ := findIdx?_some_of_exists 0 hmatch
  obtain ⟨-, hlt, hp⟩ := findIdx?_spec_getD default hi
  rw [Nat.sub_zero] at hlt hp
  have hmem : cards.getD i default ∈ cards := by
    rw [List.getD_eq_getElem cards default hlt]
    exact List.getElem_mem hlt
  have h4 : 4 ≤ (cards.getD i default).lb.getD 0 := hmax _ hmem hp
  unfold add_card
  rw [hi]
  simp only [h4, if_true, if_pos h4]

def c4card : UserCard :=
  { name := some "A", type := some 0, rarity := some 3, lb := some 4 }

/-- Witness for C4 at a one-card collection already at max limit break. -/
theorem add_card_already_max_witness :
    add_card [c4card] "A" 0 3 = ([c4card], maxLbMessage "A") :=
  add_card_already_max [c4card] "A" 0 3
    ⟨c4card, by simp, by decide⟩ (by decide)


theorem enrichOne_fst (tidx : CardKey → Option TierlistCard) (card : JCard) :
    (enrichOne tidx card).1 = card := by
  unfold enrichOne
  repeat' split <;> try rfl

theorem enrich_cards_cons (tidx : CardKey → Option TierlistCard) (c : JCard)
    (l : List JCard) :
    enrich_cards (c :: l) tidx =
      match (enrichOne tidx c).2 with
      | some o => o :: enrich_cards l tidx
      | none => enrich_cards l tidx := rfl

theorem enrich_cards_append (tidx : CardKey → Option TierlistCard)
    (l₁ l₂ : List JCard) :
    enrich_cards (l₁ ++ l₂) tidx = enrich_cards l₁ tidx ++ enrich_cards l₂ tidx := by
  induction l₁ with
  | nil => rfl
  | cons c l ihl =>
    rw [List.cons_append, enrich_cards_cons, enrich_cards_cons, ihl]
    cases (enrichOne tidx c).2 <;> simp

/-- C7: the enrichment loop works on a copy of each card; the input list
as the loop leaves it is exactly the input list, so the source collection
is unchanged after enrichment. -/
theorem enrich_cards_input_unchanged (cards : List JCard)
    (tier_index : CardKey → Option TierlistCard) :
    (enrich_cards_st tier_index cards).2 = cards := by
  induction cards with
  | nil => rfl
  | cons c l ihl =>
    show (enrichOne tier_index c).1 :: (enrich_cards_st tier_index l).2 = c :: l
    rw [enrichOne_fst, ihl]

/-- C5: a user card with a string name and integer type and rarity but no
matching `(name, type, rarity)` key in the tierlist index contributes
nothing to the output of `enrich_cards`: it is dropped entirely. -/
theorem enrich_cards_drops_unmatched (tier_index : CardKey → Option TierlistCard)
    (card : JCard) (pre post : List JCard) (n : String) (t r : Int)
    (hn : card.name = some (JVal.jstr n)) (ht : card.type = some (JVal.jint t))
    (hr : card.rarity = some (JVal.jint r))
    (hmiss : tier_index ⟨n, t, r⟩ = none) :
    enrich_cards (pre ++ card :: post) tier_index =
      enrich_cards pre tier_index ++ enrich_cards post tier_index := by
  have hone : (enrichOne tier_index card).2 = none := by
    simp only [enrichOne, hn, ht, hr, hmiss]
  rw [enrich_cards_append, enrich_cards_cons, hone]

def c5card : JCard :=
  { name := some (JVal.jstr "A"), type := some (JVal.jint 0),
    rarity := some (JVal.jint 3), lb := some (JVal.jint 0) }

/-- Witness for C5: a card absent from the tierlist index is dropped. -/
theorem enrich_cards_drops_unmatched_witness :
    enrich_cards ([] ++ c5card :: []) (fun _ => none) =
      enrich_cards [] (fun _ => none) ++ enrich_cards [] (fun _ => none) :=
  enrich_cards_drops_unmatched (fun _ => none) c5card [] [] "A" 0 3 rfl rfl rfl rfl


/-- C6: a user card (it carries no score/tier keys of its own) that
matches a tierlist entry but whose `lb` is not an integer, or is out of
range for the entry's scores/tiers arrays, is included in the output with
no `score` and no `tier` and its identity fields unchanged; no error is
raised (the function is total). -/
theorem enrich_cards_invalid_lb_no_score (tier_index : CardKey → Option TierlistCard)
    (card : JCard) (pre post : List JCard) (n : String) (t r : Int)
    (tc : TierlistCard)
    (hn : card.name = some (JVal.jstr n)) (ht : card.type = some (JVal.jint t))
    (hr : card.rarity = some (JVal.jint r))
    (hhit : tier_index ⟨n, t, r⟩ = some tc)
    (hscore : card.score = none) (htier : card.tier = none)
    (hbad : (∀ lb : Int, card.lb ≠ some (JVal.jint lb)) ∨
      ∃ (lb : Int) (scores tiers : List JVal),
        card.lb = some (JVal.jint lb) ∧ tc.scores = some (JVal.jlist scores) ∧
          tc.tiers = some (JVal.jlist tiers) ∧
          ¬((0 ≤ lb ∧ lb < (scores.length : Int)) ∧
            (0 ≤ lb ∧ lb < (tiers.length : Int)))) :
    ∃ o : JCard,
      enrich_cards (pre ++ card :: post) tier_index =
        enrich_cards pre tier_index ++ o :: enrich_cards post tier_index ∧
      o.score = none ∧ o.tier = none ∧ o.name = card.name ∧
      o.type = card.type ∧ o.rarity = card.rarity ∧ o.lb = card.lb := by
  set o : JCard := (match tc.id with
    | some v => { card with id := some v }
    | none => card) with ho
  have hofields : o.score = none ∧ o.tier = none ∧ o.name = card.name ∧
      o.type = card.type ∧ o.rarity = card.rarity ∧ o.lb = card.lb := by
    rw [ho]; cases tc.id <;> simp [hscore, htier]
  have hone : (enrichOne tier_index card).2 = some o := by
    rcases hbad with hleft | ⟨lb, scores, tiers, hlb, hsc, hti, hrange⟩
    · rcases hl : card.lb with _ | v
      · simp only [enrichOne, hn, ht, hr, hhit, hl]
        rw [ho]; rcases htc : tc.id with _ | w <;> simp [htc, hn, ht, hr, hl]
      · cases v with
        | jint m => exact absurd hl (hleft m)
        | jnull =>
          simp only [enrichOne, hn, ht, hr, hhit, hl]
          rw [ho]; rcases htc : tc.id with _ | w <;> simp [htc, hn, ht, hr, hl]
        | jstr s =>
          simp only [enrichOne, hn, ht, hr, hhit, hl]
          rw [ho]; rcases htc : tc.id with _ | w <;> simp [htc, hn, ht, hr, hl]
        | jlist xs =>
          simp only [enrichOne, hn, ht, hr, hhit, hl]
          rw [ho]; rcases htc : tc.id with _ | w <;> simp [htc, hn, ht, hr, hl]
    · simp only [enrichOne, hn, ht, hr, hhit, hlb, hsc, hti, if_neg hrange]
      rw [ho]; rcases htc : tc.id with _ | w <;> simp [htc, hn, ht, hr, hlb]
  refine ⟨o, ?_, hofields.1, hofields.2.1, hofields.2.2.1, hofields.2.2.2.1,
    hofields.2.2.2.2.1, hofields.2.2.2.2.2⟩
  rw [enrich_cards_append, enrich_cards_cons, hone]

def c6card : JCard :=
  { name := some (JVal.jstr "A"), type := some (JVal.jint 0),
    rarity := some (JVal.jint 3), lb := some (JVal.jstr "x") }

def c6entry : TierlistCard := { id := some (JVal.jint 7) }

def c6index : CardKey → Option TierlistCard :=
  fun k => if k = ⟨"A", 0, 3⟩ then some c6entry else none

/-- Witness for C6: a matched card with a non-integer `lb` is passed
through with no score/tier. -/
theorem enrich_cards_invalid_lb_no_score_witness :
    ∃ o : JCard,
      enrich_cards ([] ++ c6card :: []) c6index =
        enrich_cards [] c6index ++ o :: enrich_cards [] c6index ∧
      o.score = none ∧ o.tier = none ∧ o.name = c6card.name ∧
      o.type = c6card.type ∧ o.rarity = c6card.rarity ∧ o.lb = c6card.lb :=
  enrich_cards_invalid_lb_no_score c6index c6card [] [] "A" 0 3 c6entry
    rfl rfl rfl rfl rfl rfl
    (Or.inl (fun lb h => JVal.noConfusion (Option.some.inj h)))

/-- C8: enrichment is deterministic (equal inputs give identical output),
and the `enrich` run skips re-enrichment when not forced, the output
exists and its metadata records the current hashes of both inputs, and
never skips when forced. -/
theorem enrich_deterministic_and_skip (cards cards2 : List JCard)
    (tidx : CardKey → Option TierlistCard) (hsame : cards = cards2)
    (output_exists : Bool) (input_hash tierlist_hash : String) :
    enrich_cards cards tidx = enrich_cards cards2 tidx ∧
      (output_exists = true →
        enrich_should_skip false output_exists
          (some (some input_hash, some tierlist_hash)) input_hash tierlist_hash = true) ∧
      (∀ md, enrich_should_skip true output_exists md input_hash tierlist_hash = false) := by
  subst hsame
  refine ⟨rfl, ?_, ?_⟩
  · intro h; subst h; simp [enrich_should_skip]
  · intro md; simp [enrich_should_skip]

/-- Witness for C8 at a concrete collection and hashes. -/
theorem enrich_deterministic_and_skip_witness :
    enrich_cards [c5card] (fun _ => none) = enrich_cards [c5card] (fun _ => none) ∧
      (true = true →
        enrich_should_skip false true (some (some "h1", some "h2")) "h1" "h2" = true) ∧
      (∀ md, enrich_should_skip true true md "h1" "h2" = false) :=
  enrich_deterministic_and_skip [c5card] [c5card] (fun _ => none) rfl true "h1" "h2"


/-! ## Theorems: the tierlist borrow search -/

theorem mem_dictSet (m : List (Int × BorrowCand)) (k : Int) (v : BorrowCand)
    (p : Int × BorrowCand) (hp : p ∈ dictSet m k v) : p ∈ m ∨ p.2 = v := by
  unfold dictSet at hp
  split at hp
  · obtain ⟨q, hq, hqe⟩ := List.mem_map.mp hp
    split at hqe
    · right; rw [← hqe]
    · left; rw [← hqe]; exact hq
  · rcases List.mem_append.mp hp with h | h
    · left; exact h
    · right; simp at h; rw [h]

theorem tierlistBestStep_inv (mlb_ids : List Int) (best : List (Int × BorrowCand))
    (entry : String × TierlistCard)
    (hinv : ∀ p ∈ best, mlb_ids.contains p.2.id = false) :
    ∀ p ∈ tierlistBestStep mlb_ids best entry, mlb_ids.contains p.2.id = false := by
  intro p hp
  unfold tierlistBestStep at hp
  by_cases hc : mlb_ids.contains (entryIdInt entry.1 entry.2) = true
  · rw [if_pos hc] at hp; exact hinv p hp
  · rw [if_neg hc] at hp
    have hcf : mlb_ids.contains (entryIdInt entry.1 entry.2) = false :=
      Bool.eq_false_iff.mpr hc
    dsimp only at hp
    repeat' split at hp
    all_goals
      first
        | exact hinv p hp
        | {rcases mem_dictSet _ _ _ p hp with h | h
           · exact hinv p h
           · rw [h]; exact hcf}

theorem tierlist_fold_inv (mlb_ids : List Int)
    (entries : List (String × TierlistCard)) :
    ∀ (best : List (Int × BorrowCand)),
      (∀ p ∈ best, mlb_ids.contains p.2.id = false) →
      ∀ p ∈ entries.foldl (tierlistBestStep mlb_ids) best,
        mlb_ids.contains p.2.id = false := by
  induction entries with
  | nil => intro best h p hp; exact h p hp
  | cons e es ih =>
    intro best h p hp
    exact ih _ (tierlistBestStep_inv _ _ _ h) p hp

/-- C9: a per-type best borrowable card returned by
`get_best_cards_by_type_from_tierlist` is never a card the user already
owns at max limit break: no enriched collection card has `lb = 4` and the
candidate's id. -/
theorem tierlist_best_not_owned_mlb (cards : List (String × TierlistCard))
    (my_cards : List EnrichedCard) (t : Int) (b : BorrowCand)
    (hmem : (t, b) ∈ get_best_cards_by_type_from_tierlist cards my_cards) :
    ∀ c ∈ my_cards, ¬(c.lb = some 4 ∧ c.id = some b.id) := by
  rintro c hc ⟨hlb, hid⟩
  have hb : (mlbIds my_cards).contains b.id = false :=
    tierlist_fold_inv _ cards [] (by simp) (t, b) hmem
  have hbm : b.id ∈ mlbIds my_cards := by
    unfold mlbIds
    refine List.mem_filterMap.mpr ⟨c, hc, ?_⟩
    rw [hlb, hid]; rfl
  simp at hb
  exact hb hbm

def c9entry : TierlistCard :=
  { id := some (JVal.jint 7)
    type := some (JVal.jint 0)
    scores := some (JVal.jlist [JVal.jint 5])
    tiers := some (JVal.jlist [JVal.jstr "S"]) }

def c9borrow : BorrowCand :=
  { id := 7, name := "Unknown", type := 0, score := 5, tier := "S" }

def c9owned : EnrichedCard := { type := some 0, id := some 7, lb := some 2 }

/-- Witness for C9 at a one-entry tierlist and a collection owning the
candidate card below max limit break. -/
theorem tierlist_best_not_owned_mlb_witness :
    ¬(c9owned.lb = some 4 ∧ c9owned.id = some c9borrow.id) :=
  tierlist_best_not_owned_mlb [("7", c9entry)] [c9owned] 0 c9borrow (by decide)
    c9owned (by decide)

/-! ## Theorems: selection -/

theorem pyTake_subset (l : List α) (n : Int) : ∀ c ∈ pyTake l n, c ∈ l := by
  intro c hc
  unfold pyTake at hc
  split at hc <;> exact (List.take_sublist _ _).subset hc

theorem mem_sortByScoreDesc {l : List EnrichedCard} {c : EnrichedCard} :
    c ∈ sortByScoreDesc l ↔ c ∈ l :=
  (List.perm_insertionSort scoreDescRel l).mem_iff

theorem select_mem (my_cards : List EnrichedCard) (type_counts : List (Int × Int))
    (excl : Option Int) (c : EnrichedCard)
    (hc : c ∈ select_best_cards_by_type my_cards type_counts excl) :
    c ∈ my_cards ∧ selectable excl c = true ∧ ∃ p ∈ type_counts, c.type = some p.1 := by
  unfold select_best_cards_by_type at hc
  obtain ⟨tc, htc, hmem⟩ := List.mem_flatMap.mp hc
  unfold selectTypeChunk at hmem
  have h1 := pyTake_subset _ _ _ hmem
  rw [mem_sortByScoreDesc] at h1
  obtain ⟨h2, h3⟩ := List.mem_filter.mp h1
  rw [Bool.and_eq_true] at h3
  obtain ⟨hsel, hty⟩ := h3
  exact ⟨h2, hsel, tc, htc, eq_of_beq hty⟩

/-- C10: when `select_best_cards_by_type` is called with
`exclude_card_id = None` (the default, used whenever no support card is
borrowed), a collection card without an id is never selected: its missing
id reads as `None` and compares equal to the exclusion value. -/
theorem select_none_excludes_idless (my_cards : List EnrichedCard)
    (type_counts : List (Int × Int)) (c : EnrichedCard) (hid : c.id = none) :
    c ∉ select_best_cards_by_type my_cards type_counts none := by
  intro hc
  have hsel := (select_mem my_cards type_counts none c hc).2.1
  rw [selectable, hid] at hsel
  simp at hsel

def c10card : EnrichedCard := { type := some 0, score := some 5 }

/-- Witness for C10: an id-less card is not selected even when its type is
requested. -/
theorem select_none_excludes_idless_witness :
    c10card ∉ select_best_cards_by_type [c10card] (mkTypeCounts 1 0 0 0 0 0) none :=
  select_none_excludes_idless [c10card] (mkTypeCounts 1 0 0 0 0 0) c10card rfl


theorem select_cons (my_cards : List EnrichedCard) (excl : Option Int)
    (tc : Int × Int) (rest : List (Int × Int)) :
    select_best_cards_by_type my_cards (tc :: rest) excl =
      selectTypeChunk my_cards excl tc ++ select_best_cards_by_type my_cards rest excl := by
  unfold select_best_cards_by_type
  rw [List.flatMap_cons]

theorem chunk_type (my_cards : List EnrichedCard) (excl : Option Int)
    (tc : Int × Int) : ∀ c ∈ selectTypeChunk my_cards excl tc, c.type = some tc.1 := by
  intro c hc
  unfold selectTypeChunk at hc
  have h1 := pyTake_subset _ _ _ hc
  rw [mem_sortByScoreDesc] at h1
  have h2 := (List.mem_filter.mp h1).2
  rw [Bool.and_eq_true] at h2
  exact eq_of_beq h2.2

theorem select_filter_type (my_cards : List EnrichedCard) (excl : Option Int) :
    ∀ (tcs : List (Int × Int)) (t n : Int), (t, n) ∈ tcs →
      ((tcs.map (fun p => p.1)).Nodup) →
      (select_best_cards_by_type my_cards tcs excl).filter
          (fun c => c.type == some t) =
        selectTypeChunk my_cards excl (t, n) := by
  intro tcs
  induction tcs with
  | nil => intro t n h; simp at h
  | cons tc rest ih =>
    intro t n hmem hkeys
    rw [select_cons, List.filter_append]
    rcases List.mem_cons.mp hmem with heq | hrest
    · rw [← heq]
      rw [← heq] at hkeys
      have h1 : (selectTypeChunk my_cards excl (t, n)).filter
          (fun c => c.type == some t) = selectTypeChunk my_cards excl (t, n) :=
        List.filter_eq_self.mpr (fun c hc => by
          rw [chunk_type my_cards excl _ c hc]; simp)
      have h2 : (select_best_cards_by_type my_cards rest excl).filter
          (fun c => c.type == some t) = [] := by
        rw [List.filter_eq_nil_iff]
        intro c hc
        obtain ⟨-, -, p, hp, hty⟩ := select_mem my_cards rest excl c hc
        have hne : p.1 ≠ t := by
          intro h
          apply (List.nodup_cons.mp hkeys).1
          show (t, n).1 ∈ rest.map (fun p => p.1)
          rw [show (t, n).1 = t from rfl, ← h]
          exact List.mem_map.mpr ⟨p, hp, rfl⟩
        rw [hty]
        simp [hne]
      rw [h1, h2, List.append_nil]
    · have hne : tc.1 ≠ t := by
        intro h
        apply (List.nodup_cons.mp hkeys).1
        show tc.1 ∈ rest.map (fun p => p.1)
        rw [h]
        exact List.mem_map.mpr ⟨(t, n), hrest, rfl⟩
      have h1 : (selectTypeChunk my_cards excl tc).filter
          (fun c => c.type == some t) = [] := by
        rw [List.filter_eq_nil_iff]
        intro c hc
        rw [chunk_type my_cards excl tc c hc]
        simp [hne]
      rw [h1, ih t n hrest (List.nodup_cons.mp hkeys).2, List.nil_append]

/-- C3: when the collection has at least `count` selectable cards of a
requested type `t` (type keys are distinct, as keys of a dict), the cards
of type `t` returned by `select_best_cards_by_type` are exactly the first
`count` of that type's group sorted by score descending — `count` cards,
each scoring at least every unselected selectable card of the type. -/
theorem select_exact_top_count (my_cards : List EnrichedCard)
    (type_counts : List (Int × Int)) (excl : Option Int) (t n : Int)
    (hmem : (t, n) ∈ type_counts)
    (hkeys : (type_counts.map (fun p => p.1)).Nodup)
    (hn : 0 ≤ n)
    (havail : n ≤ ((my_cards.filter
      (fun c => selectable excl c && c.type == some t)).length : Int)) :
    (select_best_cards_by_type my_cards type_counts excl).filter
        (fun c => c.type == some t) =
      (sortByScoreDesc (my_cards.filter
        (fun c => selectable excl c && c.type == some t))).take n.toNat ∧
    ((select_best_cards_by_type my_cards type_counts excl).filter
        (fun c => c.type == some t)).length = n.toNat ∧
    ∀ a ∈ (select_best_cards_by_type my_cards type_counts excl).filter
        (fun c => c.type == some t),
      ∀ b ∈ (sortByScoreDesc (my_cards.filter
        (fun c => selectable excl c && c.type == some t))).drop n.toNat,
        scoreGetD b ≤ scoreGetD a := by
  set group := my_cards.filter (fun c => selectable excl c && c.type == some t) with hg
  have hfe : (select_best_cards_by_type my_cards type_counts excl).filter
      (fun c => c.type == some t) = (sortByScoreDesc group).take n.toNat := by
    rw [select_filter_type my_cards excl type_counts t n hmem hkeys]
    unfold selectTypeChunk pyTake
    rw [if_pos hn]
  have hlen : ((sortByScoreDesc group).take n.toNat).length = n.toNat := by
    rw [List.length_take]
    have hpl : (sortByScoreDesc group).length = group.length :=
      (List.perm_insertionSort scoreDescRel group).length_eq
    have : n.toNat ≤ group.length := by omega
    omega
  refine ⟨hfe, by rw [hfe]; exact hlen, ?_⟩
  intro a ha b hb
  rw [hfe] at ha
  have hsorted : List.Sorted scoreDescRel (sortByScoreDesc group) :=
    List.sorted_insertionSort scoreDescRel group
  have hsplit := List.take_append_drop n.toNat (sortByScoreDesc group)
  rw [← hsplit] at hsorted
  rw [List.Sorted, List.pairwise_append] at hsorted
  exact hsorted.2.2 a ha b hb

def c3cardA : EnrichedCard := { type := some 0, id := some 1, score := some 9 }

def c3cardB : EnrichedCard := { type := some 0, id := some 2, score := some 4 }

/-- Witness for C3: requesting one Speed card from a two-card Speed
collection returns exactly the single highest-scoring one. -/
theorem select_exact_top_count_witness :
    (select_best_cards_by_type [c3cardA, c3cardB] (mkTypeCounts 1 0 0 0 0 0) none).filter
        (fun c => c.type == some 0) =
      (sortByScoreDesc ([c3cardA, c3cardB].filter
        (fun c => selectable none c && c.type == some 0))).take (1 : Int).toNat ∧
    ((select_best_cards_by_type [c3cardA, c3cardB] (mkTypeCounts 1 0 0 0 0 0) none).filter
        (fun c => c.type == some 0)).length = (1 : Int).toNat ∧
    ∀ a ∈ (select_best_cards_by_type [c3cardA, c3cardB] (mkTypeCounts 1 0 0 0 0 0) none).filter
        (fun c => c.type == some 0),
      ∀ b ∈ (sortByScoreDesc ([c3cardA, c3cardB].filter
        (fun c => selectable none c && c.type == some 0))).drop (1 : Int).toNat,
        scoreGetD b ≤ scoreGetD a :=
  select_exact_top_count [c3cardA, c3cardB] (mkTypeCounts 1 0 0 0 0 0) none 0 1
    (by decide) (by decide) (by decide) (by decide)


/-! ## Theorems: deck size -/

theorem selectTypeChunk_length (my_cards : List EnrichedCard) (excl : Option Int)
    (tc : Int × Int) (h : 0 ≤ tc.2) :
    ((selectTypeChunk my_cards excl tc).length : Int) ≤ tc.2 := by
  unfold selectTypeChunk pyTake
  rw [if_pos h]
  have := List.length_take_le tc.2.toNat
    (sortByScoreDesc (my_cards.filter
      (fun c => selectable excl c && c.type == some tc.1)))
  omega

theorem select_length_le (my_cards : List EnrichedCard) (excl : Option Int) :
    ∀ (tcs : List (Int × Int)), (∀ p ∈ tcs, 0 ≤ p.2) →
      ((select_best_cards_by_type my_cards tcs excl).length : Int) ≤
        (tcs.map (fun p => p.2)).sum := by
  intro tcs
  induction tcs with
  | nil => intro h; simp [select_best_cards_by_type]
  | cons tc rest ih =>
    intro h
    rw [select_cons, List.length_append]
    have h1 := selectTypeChunk_length my_cards excl tc (h tc (by simp))
    have h2 := ih (fun p hp => h p (List.mem_cons_of_mem tc hp))
    rw [List.map_cons, List.sum_cons]
    push_cast
    omega

theorem lookup_of_mem_nodup_keys :
    ∀ (tcs : List (Int × Int)) (t c : Int), ((tcs.map (fun p => p.1)).Nodup) →
      (t, c) ∈ tcs → tcs.lookup t = some c := by
  intro tcs
  induction tcs with
  | nil => intro t c h hm; simp at hm
  | cons p rest ih =>
    intro t c h hm
    rw [List.lookup]
    rcases List.mem_cons.mp hm with heq | hrest
    · rw [← heq]
      simp
    · have hne : (t == p.1) = false := by
        rw [beq_eq_false_iff_ne]
        intro he
        apply (List.nodup_cons.mp h).1
        show p.1 ∈ rest.map (fun q => q.1)
        rw [← he]
        exact List.mem_map.mpr ⟨(t, c), hrest, rfl⟩
      rw [hne]
      exact ih t c (List.nodup_cons.mp h).2 hrest

theorem decrementType_nonneg (tcs : List (Int × Int)) (t : Int)
    (hkeys : (tcs.map (fun p => p.1)).Nodup) (h : ∀ p ∈ tcs, 0 ≤ p.2) :
    ∀ p ∈ decrementType tcs t, 0 ≤ p.2 := by
  intro p hp
  unfold decrementType at hp
  split at hp
  case isTrue hpos =>
    obtain ⟨q, hq, hqe⟩ := List.mem_map.mp hp
    by_cases hqt : (q.1 == t) = true
    · rw [if_pos hqt] at hqe
      have hq1 : q.1 = t := eq_of_beq hqt
      have : tcs.lookup t = some q.2 := by
        rw [← hq1]
        exact lookup_of_mem_nodup_keys tcs q.1 q.2 hkeys (by rw [Prod.mk.eta]; exact hq)
      rw [dictGetD, this] at hpos
      simp at hpos
      rw [← hqe]
      simp
      omega
    · rw [if_neg hqt] at hqe
      rw [← hqe]
      exact h q hq
  case isFalse => exact h p hp

theorem decrementType_sum_le (tcs : List (Int × Int)) (t : Int) :
    ((decrementType tcs t).map (fun p => p.2)).sum ≤ (tcs.map (fun p => p.2)).sum := by
  unfold decrementType
  split
  · rw [List.map_map]
    apply List.sum_le_sum
    intro p hp
    simp only [Function.comp]
    split <;> omega
  · exact le_refl _

theorem fillRemaining_length (my_cards selected : List EnrichedCard)
    (sel_ids : List (Option Int)) (used : Nat) :
    (fillRemaining my_cards selected sel_ids used).length ≤
      selected.length + (6 - used) := by
  unfold fillRemaining
  split
  · rw [List.length_append]
    have := List.length_take_le (6 - used)
      (sortByScoreDesc (my_cards.filter
        (fun c => !(sel_ids.contains c.id) && !(c.score == none))))
    omega
  · omega

theorem candidateDeck_length (type_counts : List (Int × Int))
    (my_cards : List EnrichedCard) (cand : BorrowCand)
    (hkeys : (type_counts.map (fun p => p.1)).Nodup)
    (hnn : ∀ p ∈ type_counts, 0 ≤ p.2)
    (hsum : (type_counts.map (fun p => p.2)).sum ≤ 5) :
    (candidateDeck type_counts my_cards cand).length ≤ 5 := by
  unfold candidateDeck
  dsimp only
  have hsim1 := decrementType_nonneg type_counts cand.type hkeys hnn
  have hsim2 := decrementType_sum_le type_counts cand.type
  have hcur : ((select_best_cards_by_type my_cards
      (decrementType type_counts cand.type) (some cand.id)).length : Int) ≤ 5 := by
    have := select_length_le my_cards (some cand.id)
      (decrementType type_counts cand.type) hsim1
    omega
  split
  case isTrue hlt =>
    have := fillRemaining_length my_cards
      (select_best_cards_by_type my_cards
        (decrementType type_counts cand.type) (some cand.id))
      ((select_best_cards_by_type my_cards
        (decrementType type_counts cand.type) (some cand.id)).map (fun c => c.id) ++
          [some cand.id])
      ((select_best_cards_by_type my_cards
        (decrementType type_counts cand.type) (some cand.id)).length + 1)
    omega
  case isFalse => omega

theorem searchSupport_shape (type_counts : List (Int × Int))
    (my_cards : List EnrichedCard) :
    ∀ (cands : List BorrowCand) (st : Int × Int × Option (BorrowCand × List EnrichedCard)),
      (∀ bs, st.2.2 = some bs → bs.2 = candidateDeck type_counts my_cards bs.1) →
      ∀ bs, (cands.foldl (supportStep type_counts my_cards) st).2.2 = some bs →
        bs.2 = candidateDeck type_counts my_cards bs.1 := by
  intro cands
  induction cands with
  | nil => intro st h bs hbs; exact h bs hbs
  | cons c cs ih =>
    intro st h bs hbs
    refine ih (supportStep type_counts my_cards st c) ?_ bs hbs
    intro bs2 hbs2
    unfold supportStep at hbs2
    dsimp only at hbs2
    split at hbs2
    · rw [Option.some.injEq] at hbs2
      rw [← hbs2]
    · exact h bs2 hbs2


/-- C1: for a run of the recommend subcommand with nonnegative per-type
counts whose sum is between 1 and 6, the resulting deck — the selected
collection cards plus the borrowed support card when one is chosen —
contains at most 6 cards. -/
theorem recommend_deck_at_most_six (no_support : Bool)
    (speed stamina power guts wit friend : Int)
    (my_cards : List EnrichedCard) (potential_borrows : List BorrowCand)
    (h0 : 0 ≤ speed) (h1 : 0 ≤ stamina) (h2 : 0 ≤ power) (h3 : 0 ≤ guts)
    (h4 : 0 ≤ wit) (h5 : 0 ≤ friend)
    (hlo : 1 ≤ speed + stamina + power + guts + wit + friend)
    (hhi : speed + stamina + power + guts + wit + friend ≤ 6) :
    deckSize (recommend_run no_support
      (mkTypeCounts speed stamina power guts wit friend)
      my_cards potential_borrows) ≤ 6 := by
  have hkeys : ((mkTypeCounts speed stamina power guts wit friend).map
      (fun p => p.1)).Nodup := by
    simp [mkTypeCounts]
  have hnn : ∀ p ∈ mkTypeCounts speed stamina power guts wit friend, 0 ≤ p.2 := by
    intro p hp
    simp only [mkTypeCounts, List.mem_cons, List.not_mem_nil, or_false] at hp
    rcases hp with h|h|h|h|h|h <;> rw [h] <;> assumption
  have hsum : ((mkTypeCounts speed stamina power guts wit friend).map
      (fun p => p.2)).sum = speed + stamina + power + guts + wit + friend := by
    simp [mkTypeCounts]
    ring
  unfold recommend_run
  dsimp only
  split
  · simp [deckSize]
  · split
    · simp [deckSize]
    · split
      case _ bs heq =>
        split at heq
        case isTrue hc =>
          have hshape : bs.2 = candidateDeck
              (mkTypeCounts speed stamina power guts wit friend) my_cards bs.1 :=
            searchSupport_shape _ my_cards potential_borrows (-1, -1, none)
              (by intro bs2 h; cases h) bs heq
          rw [Bool.and_eq_true] at hc
          have hlt : ((mkTypeCounts speed stamina power guts wit friend).map
              (fun p => p.2)).sum < 6 := of_decide_eq_true hc.2
          have hlen := candidateDeck_length
            (mkTypeCounts speed stamina power guts wit friend) my_cards bs.1
            hkeys hnn (by omega)
          rw [← hshape] at hlen
          simp [deckSize]
          omega
        case isFalse => cases heq
      case _ heq =>
        have hsel := select_length_le my_cards none
          (mkTypeCounts speed stamina power guts wit friend) hnn
        have hfill := fillRemaining_length my_cards
          (select_best_cards_by_type my_cards
            (mkTypeCounts speed stamina power guts wit friend) none)
          ((select_best_cards_by_type my_cards
            (mkTypeCounts speed stamina power guts wit friend) none).map
              (fun c => c.id))
          (select_best_cards_by_type my_cards
            (mkTypeCounts speed stamina power guts wit friend) none).length
        simp [deckSize]
        omega

/-- Witness for C1 at a concrete request of five cards. -/
theorem recommend_deck_at_most_six_witness :
    deckSize (recommend_run true (mkTypeCounts 2 1 1 1 0 0) [] []) ≤ 6 :=
  recommend_deck_at_most_six true 2 1 1 1 0 0 [] []
    (by decide) (by decide) (by decide) (by decide) (by decide) (by decide)
    (by decide) (by decide)


/-! ## Theorems: no duplicated ids in the deck -/

theorem subperm_append_both {α : Type _} {l₁ l₂ r₁ r₂ : List α}
    (h1 : l₁.Subperm r₁) (h2 : l₂.Subperm r₂) : (l₁ ++ l₂).Subperm (r₁ ++ r₂) := by
  rw [← Multiset.coe_le] at h1 h2 ⊢
  rw [← Multiset.coe_add, ← Multiset.coe_add]
  exact add_le_add h1 h2

theorem subperm_filterMap {α β : Type _} (f : α → Option β) {l₁ l₂ : List α}
    (h : l₁.Subperm l₂) : (l₁.filterMap f).Subperm (l₂.filterMap f) := by
  rw [← Multiset.coe_le] at h ⊢
  exact Multiset.filterMap_le_filterMap f h

theorem nodup_of_subperm {α : Type _} {l₁ l₂ : List α}
    (h : l₁.Subperm l₂) (hn : l₂.Nodup) : l₁.Nodup := by
  rw [← Multiset.coe_nodup] at hn ⊢
  exact Multiset.nodup_of_le (Multiset.coe_le.mpr h) hn

theorem filter_union_subperm {α : Type _} (p q : α → Bool)
    (hdisj : ∀ a, ¬(p a = true ∧ q a = true)) :
    ∀ l : List α, (l.filter p ++ l.filter q).Subperm
      (l.filter (fun a => p a || q a)) := by
  intro l
  induction l with
  | nil => simp
  | cons a l ih =>
    cases hp : p a with
    | true =>
      have hq : q a = false := by
        cases hqv : q a
        · rfl
        · exact absurd ⟨hp, hqv⟩ (hdisj a)
      simp only [List.filter_cons, hp, hq, Bool.true_or, if_true, if_false,
        Bool.false_eq_true, List.cons_append]
      exact (List.subperm_cons a).mpr ih
    | false =>
      cases hq : q a with
      | true =>
        simp only [List.filter_cons, hp, hq, Bool.false_or, if_true, if_false,
          Bool.false_eq_true]
        exact (List.perm_middle.subperm).trans ((List.subperm_cons a).mpr ih)
      | false =>
        simp only [List.filter_cons, hp, hq, Bool.false_or, if_false,
          Bool.false_eq_true]
        exact ih

theorem pyTake_sublist {α : Type _} (l : List α) (n : Int) :
    (pyTake l n).Sublist l := by
  unfold pyTake
  split <;> exact List.take_sublist _ _

theorem selectTypeChunk_subperm (my_cards : List EnrichedCard) (excl : Option Int)
    (tc : Int × Int) :
    (selectTypeChunk my_cards excl tc).Subperm
      (my_cards.filter (fun c => selectable excl c && c.type == some tc.1)) := by
  unfold selectTypeChunk
  exact ((pyTake_sublist _ _).subperm).trans
    ((List.perm_insertionSort scoreDescRel _).subperm)

theorem select_subperm (my_cards : List EnrichedCard) (excl : Option Int) :
    ∀ tcs : List (Int × Int), ((tcs.map (fun p => p.1)).Nodup) →
      (select_best_cards_by_type my_cards tcs excl).Subperm
        (my_cards.filter (fun c => selectable excl c &&
          tcs.any (fun p => c.type == some p.1))) := by
  intro tcs
  induction tcs with
  | nil =>
    intro h
    exact List.nil_subperm
  | cons tc rest ih =>
    intro hkeys
    rw [select_cons]
    have h1 := selectTypeChunk_subperm my_cards excl tc
    have h2 := ih (List.nodup_cons.mp hkeys).2
    have h3 := subperm_append_both h1 h2
    refine h3.trans ?_
    have h4 := filter_union_subperm
      (fun c => selectable excl c && c.type == some tc.1)
      (fun c => selectable excl c && rest.any (fun p => c.type == some p.1))
      ?_ my_cards
    · refine h4.trans ?_
      have h5 : my_cards.filter (fun c =>
            (selectable excl c && c.type == some tc.1) ||
            (selectable excl c && rest.any (fun p => c.type == some p.1))) =
          my_cards.filter (fun c => selectable excl c &&
            (tc :: rest).any (fun p => c.type == some p.1)) := by
        apply List.filter_congr
        intro c hc
        rw [List.any_cons]
        cases selectable excl c <;>
          cases (c.type == some tc.1) <;>
          cases rest.any (fun p => c.type == some p.1) <;> rfl
      rw [h5]
    · intro c hc
      obtain ⟨h6, h7⟩ := hc
      rw [Bool.and_eq_true] at h6 h7
      obtain ⟨p, hp, hpt⟩ := List.any_eq_true.mp h7.2
      apply (List.nodup_cons.mp hkeys).1
      have : c.type = some tc.1 := eq_of_beq h6.2
      have hpt' : c.type = some p.1 := eq_of_beq hpt
      have : p.1 = tc.1 := by
        rw [this] at hpt'
        exact (Option.some.inj hpt').symm
      show tc.1 ∈ rest.map (fun q => q.1)
      rw [← this]
      exact List.mem_map.mpr ⟨p, hp, rfl⟩


theorem not_mem_of_contains_false {α : Type _} [BEq α] [LawfulBEq α]
    {l : List α} {a : α} (h : l.contains a = false) : a ∉ l := by
  intro hm
  have h2 : List.elem a l = false := h
  rw [List.elem_eq_true_of_mem hm] at h2
  cases h2

theorem fillRemaining_mem (my_cards selected : List EnrichedCard)
    (sel_ids : List (Option Int)) (used : Nat) (c : EnrichedCard)
    (hc : c ∈ fillRemaining my_cards selected sel_ids used) :
    c ∈ selected ∨ (sel_ids.contains c.id = false ∧ c ∈ my_cards) := by
  unfold fillRemaining at hc
  split at hc
  · rcases List.mem_append.mp hc with h | h
    · exact Or.inl h
    · right
      have h1 := (List.take_sublist _ _).subset h
      rw [mem_sortByScoreDesc] at h1
      obtain ⟨h2, h3⟩ := List.mem_filter.mp h1
      rw [Bool.and_eq_true] at h3
      refine ⟨?_, h2⟩
      have h4 := h3.1
      cases hcc : sel_ids.contains c.id
      · rfl
      · rw [hcc] at h4; cases h4
  · exact Or.inl hc

theorem fillRemaining_ids_nodup (my_cards selected : List EnrichedCard)
    (sel_ids : List (Option Int)) (used : Nat)
    (hmy : (my_cards.filterMap (fun c => c.id)).Nodup)
    (hsel : (selected.filterMap (fun c => c.id)).Nodup)
    (hcover : ∀ c ∈ selected, c.id ∈ sel_ids) :
    ((fillRemaining my_cards selected sel_ids used).filterMap
      (fun c => c.id)).Nodup := by
  unfold fillRemaining
  split
  case isTrue =>
    rw [List.filterMap_append, List.nodup_append]
    refine ⟨hsel, ?_, ?_⟩
    · apply nodup_of_subperm (subperm_filterMap _ ?_) hmy
      exact ((List.take_sublist _ _).subperm.trans
        (List.perm_insertionSort scoreDescRel _).subperm).trans
        (List.filter_sublist _).subperm
    · intro a ha hb
      obtain ⟨d, hd, hdid⟩ := List.mem_filterMap.mp ha
      obtain ⟨c, hc, hcid⟩ := List.mem_filterMap.mp hb
      have h1 := (List.take_sublist _ _).subset hc
      rw [mem_sortByScoreDesc] at h1
      have h3 := (List.mem_filter.mp h1).2
      rw [Bool.and_eq_true] at h3
      have hcf : sel_ids.contains c.id = false := by
        cases hcc : sel_ids.contains c.id
        · rfl
        · rw [hcc] at h3; rcases h3 with ⟨h31, -⟩; cases h31
      apply not_mem_of_contains_false hcf
      rw [hcid, ← hdid]
      exact hcover d hd
  case isFalse => exact hsel

theorem select_id_ne_exclude (my_cards : List EnrichedCard)
    (tcs : List (Int × Int)) (x : Int) (c : EnrichedCard)
    (hc : c ∈ select_best_cards_by_type my_cards tcs (some x)) :
    c.id ≠ some x := by
  have hsel := (select_mem my_cards tcs (some x) c hc).2.1
  rw [selectable, Bool.and_eq_true] at hsel
  intro h
  rw [h] at hsel
  simp at hsel

theorem decrementType_keys (tcs : List (Int × Int)) (t : Int) :
    (decrementType tcs t).map (fun p => p.1) = tcs.map (fun p => p.1) := by
  unfold decrementType
  split
  · rw [List.map_map]
    apply List.map_congr_left
    intro p hp
    simp only [Function.comp]
    split <;> rfl
  · rfl

theorem candidateDeck_ids_nodup (tcs : List (Int × Int))
    (my_cards : List EnrichedCard) (cand : BorrowCand)
    (hkeys : (tcs.map (fun p => p.1)).Nodup)
    (hmy : (my_cards.filterMap (fun c => c.id)).Nodup) :
    ((candidateDeck tcs my_cards cand).filterMap (fun c => c.id)).Nodup ∧
      cand.id ∉ (candidateDeck tcs my_cards cand).filterMap (fun c => c.id) := by
  have hdkeys : ((decrementType tcs cand.type).map (fun p => p.1)).Nodup := by
    rw [decrementType_keys]
    exact hkeys
  have hselnodup : ((select_best_cards_by_type my_cards
      (decrementType tcs cand.type) (some cand.id)).filterMap
        (fun c => c.id)).Nodup := by
    apply nodup_of_subperm (subperm_filterMap _ ?_) hmy
    exact (select_subperm my_cards (some cand.id) _ hdkeys).trans
      (List.filter_sublist _).subperm
  unfold candidateDeck
  dsimp only
  split
  case isTrue h =>
    constructor
    · apply fillRemaining_ids_nodup _ _ _ _ hmy hselnodup
      intro c hc
      exact List.mem_append.mpr (Or.inl (List.mem_map.mpr ⟨c, hc, rfl⟩))
    · intro hmem
      obtain ⟨c, hc, hcid⟩ := List.mem_filterMap.mp hmem
      rcases fillRemaining_mem _ _ _ _ c hc with h1 | ⟨h2, h3⟩
      · exact select_id_ne_exclude _ _ _ c h1 hcid
      · apply not_mem_of_contains_false h2
        rw [hcid]
        exact List.mem_append.mpr (Or.inr (by simp))
  case isFalse =>
    constructor
    · exact hselnodup
    · intro hmem
      obtain ⟨c, hc, hcid⟩ := List.mem_filterMap.mp hmem
      exact select_id_ne_exclude _ _ _ c hc hcid

def c2dupCard : EnrichedCard := { type := some 0, id := some 1, score := some 10 }

/-- C2 as stated fails on collections that repeat an id: listing the same
card (id 1) twice and requesting two Speed cards yields a deck carrying
id 1 twice. -/
theorem recommend_duplicate_id_counterexample :
    ¬ (deckIds (recommend_run true (mkTypeCounts 2 0 0 0 0 0)
      [c2dupCard, c2dupCard] [])).Nodup := by decide

/-- C2 (amended): when no two collection cards carry the same present id,
the recommended deck — borrowed support card included — never contains
the same card id twice. -/
theorem recommend_no_duplicate_ids (no_support : Bool)
    (speed stamina power guts wit friend : Int)
    (my_cards : List EnrichedCard) (potential_borrows : List BorrowCand)
    (hids : (my_cards.filterMap (fun c => c.id)).Nodup) :
    (deckIds (recommend_run no_support
      (mkTypeCounts speed stamina power guts wit friend)
      my_cards potential_borrows)).Nodup := by
  have hkeys : ((mkTypeCounts speed stamina power guts wit friend).map
      (fun p => p.1)).Nodup := by
    simp [mkTypeCounts]
  unfold recommend_run
  dsimp only
  split
  · simp [deckIds]
  · split
    · simp [deckIds]
    · split
      case _ bs heq =>
        split at heq
        case isTrue hc =>
          have hshape := searchSupport_shape _ my_cards potential_borrows
            (-1, -1, none) (by intro bs2 h; cases h) bs heq
          have hcd := candidateDeck_ids_nodup _ my_cards bs.1 hkeys hids
          rw [← hshape] at hcd
          simp only [deckIds, List.singleton_append]
          exact List.nodup_cons.mpr ⟨hcd.2, hcd.1⟩
        case isFalse => cases heq
      case _ heq =>
        simp only [deckIds, List.nil_append]
        have hsel : ((select_best_cards_by_type my_cards
            (mkTypeCounts speed stamina power guts wit friend) none).filterMap
              (fun c => c.id)).Nodup := by
          apply nodup_of_subperm (subperm_filterMap _ ?_) hids
          exact (select_subperm my_cards none _ hkeys).trans
            (List.filter_sublist _).subperm
        apply fillRemaining_ids_nodup _ _ _ _ hids hsel
        intro c hc
        exact List.mem_map.mpr ⟨c, hc, rfl⟩

def c2cardA : EnrichedCard := { type := some 0, id := some 1, score := some 10 }

def c2cardB : EnrichedCard := { type := some 0, id := some 2, score := some 8 }

/-- Witness for the amended C2 at a distinct-id collection. -/
theorem recommend_no_duplicate_ids_witness :
    (deckIds (recommend_run true (mkTypeCounts 2 0 0 0 0 0)
      [c2cardA, c2cardB] [])).Nodup :=
  recommend_no_duplicate_ids true 2 0 0 0 0 0 [c2cardA, c2cardB] [] (by decide)


end UmaCards
